import Mathlib

/-!
# Verification of the appstore core pipeline

Shallow embedding of the repository's core modules:

* `src/parsers/__init__.py` — `DockerComposeParser` (`parse_app`, `_localized_string`,
  `_flatten_env`, `_normalize_ports`, `_normalize_volumes`);
* `src/parsers/compose_schema.py` — `ComposeSchema` (`infer_type`, `extract_schema`,
  `apply_overrides`, `extract_volumes`, `apply_volume_overrides`);
* `src/git_sync/__init__.py` — `GitSync` (`clone_or_update`, `_remote_has_branch`,
  `sync_all`).

YAML documents (the result of `yaml.safe_load`) are modelled by the inductive
type `Yaml`; mapping keys are strings (docker-compose mappings use string keys)
and numeric scalars are integers (floats are out of scope for all properties
below).  External library calls are modelled at their interface:
`yaml.safe_load` becomes an `Option Yaml` argument (`none` = the parse raised),
`yaml.dump` is kept symbolic (`OverrideResult.dumped` carries the document that
is serialized, and re-parsing a dumped document is the identity on it), and git
operations are an oracle record of their observable outcomes.

Python exceptions that the source does *not* catch are modelled by `Option`
results (`none` = an uncaught exception propagates); exceptions the source
catches are folded into the handler's result, exactly as the code does.
-/

namespace AppStore

/-- A YAML value as produced by `yaml.safe_load` (floats omitted, mapping keys
restricted to strings; both restrictions match every manifest this pipeline
handles). -/
inductive Yaml where
  | s (v : String)
  | i (v : Int)
  | b (v : Bool)
  | null
  | list (xs : List Yaml)
  | map (kvs : List (String × Yaml))


/-- Python truthiness (`bool(x)`) for the modelled YAML values. -/
def truthy : Yaml → Bool
  | .s v => v ≠ ""
  | .i v => v ≠ 0
  | .b v => v
  | .null => false
  | .list xs => ¬ xs.isEmpty
  | .map kvs => ¬ kvs.isEmpty

/-- Split a character list at the first occurrence of `c`
(Python `s.split(c, 1)`); if `c` is absent the whole list is the first
component. -/
def splitFirstList (c : Char) : List Char → List Char × List Char
  | [] => ([], [])
  | a :: rest =>
    if a = c then ([], rest)
    else
      let p := splitFirstList c rest
      (a :: p.1, p.2)

/-- `s.split(c, 1)` on strings, as the pair (before, after). -/
def splitFirst (s : String) (c : Char) : String × String :=
  let p := splitFirstList c s.data
  (⟨p.1⟩, ⟨p.2⟩)

/-- Python `s.split(c)` (split on every occurrence) on character lists. -/
def pySplitL (c : Char) : List Char → List (List Char)
  | [] => [[]]
  | a :: rest =>
    let r := pySplitL c rest
    if a = c then [] :: r
    else
      match r with
      | s :: ss => (a :: s) :: ss
      | [] => [[a]]

/-- Python `s.split(c)` on strings. -/
def pySplit (s : String) (c : Char) : List String :=
  (pySplitL c s.data).map (fun l => ⟨l⟩)

/-- Python `s.strip(chars)`: drop characters of `cs` from both ends. -/
def pyStrip (s : String) (cs : List Char) : String :=
  ⟨((s.data.dropWhile (cs.contains ·)).reverse.dropWhile (cs.contains ·)).reverse⟩

/-- Boolean list-prefix test (kernel-reducible, unlike the string library's
`startsWith`). -/
def isPrefixB : List Char → List Char → Bool
  | [], _ => true
  | _ :: _, [] => false
  | a :: as, b :: bs => a = b && isPrefixB as bs

/-- Boolean contiguous-sublist test. -/
def isInfixB (p l : List Char) : Bool :=
  l.tails.any (isPrefixB p)

/-- Python `s.startswith(pre)`. -/
def pyStartsWith (s pre : String) : Bool :=
  isPrefixB pre.data s.data

/-- Python substring test `needle in hay` for strings. -/
def pyInStr (needle hay : String) : Bool :=
  isInfixB needle.data hay.data

/-- ASCII-case-insensitive character equality (`re.IGNORECASE`; every
`TYPE_PATTERNS` pattern is ASCII). -/
def charFoldEq (a b : Char) : Bool :=
  (if 97 ≤ a.toNat ∧ a.toNat ≤ 122 then a.toNat - 32 else a.toNat) =
    (if 97 ≤ b.toNat ∧ b.toNat ≤ 122 then b.toNat - 32 else b.toNat)

/-- Case-insensitive list-prefix test. -/
def ciPrefixB : List Char → List Char → Bool
  | [], _ => true
  | _ :: _, [] => false
  | a :: as, b :: bs => charFoldEq a b && ciPrefixB as bs

/-- Case-insensitive contiguous-sublist test. -/
def ciInfixB (p l : List Char) : Bool :=
  l.tails.any (ciPrefixB p)

/-- Case-insensitive list-suffix test. -/
def ciSuffixB (p l : List Char) : Bool :=
  ciPrefixB p.reverse l.reverse

/-- Python `str(x)` / `repr(x)` of a modelled YAML value, with recursion
fuel to keep the definition structurally recursive (and hence
kernel-reducible).  Scalars — the only case any claim depends on — follow
Python exactly (`True`/`False`/`None`, decimal integers) and ignore the
fuel; container rendering follows `repr` in shape. -/
def pyStrFuel (fuel : Nat) (y : Yaml) : String :=
  match y, fuel with
  | .s v, _ => v
  | .i v, _ => toString v
  | .b true, _ => "True"
  | .b false, _ => "False"
  | .null, _ => "None"
  | .list _, 0 => ""
  | .map _, 0 => ""
  | .list xs, f + 1 =>
    "[" ++ String.intercalate ", " (xs.map (pyStrFuel f)) ++ "]"
  | .map kvs, f + 1 =>
    "\x7b" ++
      String.intercalate ", " (kvs.map (fun kv => kv.1 ++ ": " ++ pyStrFuel f kv.2)) ++
      "\x7d"

/-- Python `str(x)` of a modelled YAML value.  The fixed fuel covers any
container nesting a real manifest can have (scalar rendering — the only case
any claim below depends on — never consumes fuel at all). -/
def pyStr (y : Yaml) : String := pyStrFuel 1000 y

/-- Python `dict` assignment `d[k] = v` on an association list: replace the
value at the first occurrence of `k` (keeping its position, as CPython does),
else append. -/
def assocSet {α : Type} (l : List (String × α)) (k : String) (v : α) :
    List (String × α) :=
  match l with
  | [] => [(k, v)]
  | (k', v') :: rest =>
    if k' = k then (k', v) :: rest else (k', v') :: assocSet rest k v

/-- Python `k in container` membership test (`none` = `TypeError` raised for
non-container scalars): key membership for mappings, substring for strings,
element equality for lists. -/
def ymem (c : Yaml) (k : String) : Option Bool :=
  match c with
  | .map kvs => some (kvs.any (fun kv => kv.1 = k))
  | .s v => some (pyInStr k v)
  | .list xs =>
    some (xs.any (fun x => match x with | .s v => v = k | _ => false))
  | _ => none

/-- Python `for x in container` (`none` = `TypeError`): lists iterate
elements, mappings iterate keys, strings iterate one-character strings. -/
def iterElems : Yaml → Option (List Yaml)
  | .list xs => some xs
  | .map kvs => some (kvs.map (fun kv => Yaml.s kv.1))
  | .s v => some (v.data.map (fun ch => Yaml.s (String.singleton ch)))
  | _ => none

/-- Python `mapping.get(k, dflt)` on a YAML value (`none` = `AttributeError`:
`.get` only exists on mappings).  A key stored with value `null` returns
`null`, not the default, exactly as `dict.get`. -/
def getAttr (y : Yaml) (k : String) (dflt : Yaml) : Option Yaml :=
  match y with
  | .map kvs => some (((kvs.lookup k).getD dflt))
  | _ => none

/-! ## `src/parsers/__init__.py` — `DockerComposeParser` -/

/-- `ServiceMetadata` (from `src/models/__init__.py`).  Fields that the source
passes through unchanged keep their raw YAML value; `environment` is the flat
string map produced by `_flatten_env`. -/
structure ServiceMetadata where
  container_name : Yaml
  image : Yaml
  ports : List Yaml
  volumes : List Yaml
  environment : List (String × String)

/-- `App` (from `src/models/__init__.py`), with raw YAML values where
`parse_app` stores the manifest's value unprocessed.  Pydantic's string
coercion of non-string scalars is not modelled: an `App` here records exactly
what `parse_app` passes to the constructor. -/
structure App where
  app_id : String
  title : Yaml
  description : Yaml
  icon : Yaml
  developer : Yaml
  category : Yaml
  port_map : Yaml
  index : Yaml
  main_service : Yaml
  screenshot_links : Yaml
  thumbnail : Yaml
  repository_source : String
  compose_content : String
  services : List (String × ServiceMetadata)
  architectures : Yaml
  tags : Yaml

/-- Python `str(v) if v is not None else ""` (the value normalization of
`_flatten_env`'s mapping branch). -/
def strOrEmpty : Yaml → String
  | .null => ""
  | v => pyStr v

/-- One step of `_flatten_env`'s mapping branch. -/
def flattenMapStep (acc : List (String × String)) (kv : String × Yaml) :
    List (String × String) :=
  assocSet acc kv.1 (strOrEmpty kv.2)

/-- One step of `_flatten_env`'s list branch: only `KEY=VALUE` strings
contribute, split at the first `=`. -/
def flattenListStep (acc : List (String × String)) (it : Yaml) :
    List (String × String) :=
  match it with
  | .s str =>
    if str.data.contains '=' then
      let p := splitFirst str '='
      assocSet acc p.1 p.2
    else acc
  | _ => acc

/-- `DockerComposeParser._flatten_env`: normalize an environment declaration
(mapping or list of `KEY=VALUE` strings) to a flat string→string map; any
other shape yields the empty map. -/
def _flatten_env (env : Yaml) : List (String × String) :=
  match env with
  | .map kvs => kvs.foldl flattenMapStep []
  | .list items => items.foldl flattenListStep []
  | _ => []

/-- `DockerComposeParser._localized_string`: pick a locale value out of a
localization mapping (`en_US`/`en_us`/`it_IT`/`it_it` chained with `or`, the
first truthy one returned raw), else the first truthy value stringified, else
`""`; non-mapping input is stringified when truthy, else `""`. -/
def _localized_string (value : Yaml) : Yaml :=
  match value with
  | .map kvs =>
    let chain :=
      (["en_US", "en_us", "it_IT", "it_it"].map
        (fun k => (kvs.lookup k).getD Yaml.null)).find? truthy
    match chain with
    | some r => r
    | none =>
      match kvs.find? (fun kv => truthy kv.2) with
      | some kv => .s (pyStr kv.2)
      | none => .s ""
  | v => if truthy v then .s (pyStr v) else .s ""

/-- One entry of `DockerComposeParser._normalize_ports`: shorthand strings
become `{"port_string": s}`, records pass through, integers (including
booleans, which Python treats as `int`) become `{"port": n}`, anything else is
dropped. -/
def normalizePortEntry : Yaml → Option Yaml
  | .s str => some (.map [("port_string", .s str)])
  | .map kvs => some (.map kvs)
  | .i n => some (.map [("port", .i n)])
  | .b bv => some (.map [("port", .b bv)])
  | _ => none

/-- `DockerComposeParser._normalize_ports` (`none` = iterating a truthy
non-iterable raised `TypeError`, which `parse_app` catches). -/
def _normalize_ports (ports : Yaml) : Option (List Yaml) :=
  if ¬ truthy ports then some []
  else (iterElems ports).map (fun es => es.filterMap normalizePortEntry)

/-- One entry of `DockerComposeParser._normalize_volumes`: shorthand strings
become `{"volume_string": s}`, records pass through, anything else is
dropped. -/
def normalizeVolumeEntry : Yaml → Option Yaml
  | .s str => some (.map [("volume_string", .s str)])
  | .map kvs => some (.map kvs)
  | _ => none

/-- `DockerComposeParser._normalize_volumes`. -/
def _normalize_volumes (volumes : Yaml) : Option (List Yaml) :=
  if ¬ truthy volumes then some []
  else (iterElems volumes).map (fun es => es.filterMap normalizeVolumeEntry)

/-- Main-service resolution of `parse_app` (its lines 35–41): the truthy
`x-casaos.main` value, else the first `services` key; `none` when neither
resolves (which makes `parse_app` return `None`, either via
`return None` or via the `AttributeError` of `.keys()` on a non-mapping
caught by the enclosing `try`). -/
def resolve_main (kvs ckvs : List (String × Yaml)) : Option Yaml :=
  let main := (ckvs.lookup "main").getD Yaml.null
  if truthy main then some main
  else
    match (kvs.lookup "services").getD (Yaml.map []) with
    | .map svcs =>
      match svcs.head? with
      | some kv => if truthy (.s kv.1) then some (.s kv.1) else none
      | none => none
    | _ => none

/-- The per-service block of `parse_app`'s service loop. -/
def buildService (name : String) (cf : List (String × Yaml)) :
    Option ServiceMetadata := do
  let ports ← _normalize_ports ((cf.lookup "ports").getD (Yaml.list []))
  let vols ← _normalize_volumes ((cf.lookup "volumes").getD (Yaml.list []))
  pure
    { container_name := (cf.lookup "container_name").getD (.s name)
      image := (cf.lookup "image").getD (.s "")
      ports := ports
      volumes := vols
      environment := _flatten_env ((cf.lookup "environment").getD (.map [])) }

/-- `parse_app`'s service loop: services whose config is not a mapping are
skipped; a `TypeError` inside normalization aborts the parse (`none`). -/
def buildServices (svcs : List (String × Yaml)) :
    Option (List (String × ServiceMetadata)) :=
  svcs.foldlM
    (fun acc sv =>
      match sv.2 with
      | .map cf => (buildService sv.1 cf).map (fun m => assocSet acc sv.1 m)
      | _ => pure acc) []

/-- Normalization of `x-casaos.screenshot_link` in `parse_app`: a bare string
becomes a one-element list, `None` becomes the empty list, anything else is
kept. -/
def normalizeScreenshots : Yaml → Yaml
  | .s str => .list [.s str]
  | .null => .list []
  | v => v

/-- `DockerComposeParser.parse_app`.  The compose file's text is `raw`; its
`yaml.safe_load` result is the `compose` argument (`none` = the load raised,
caught by the enclosing `try`).  Any uncaught Python exception inside the
body is caught by the same `try`, so the model returns `none` exactly where
the source returns `None`. -/
def parse_app (compose : Option Yaml) (raw : String)
    (app_id repository_source : String) : Option App :=
  match compose with
  | none => none
  | some c =>
    if ¬ truthy c then none
    else
      match c with
      | .map kvs =>
        match (kvs.lookup "x-casaos").getD (Yaml.map []) with
        | .map ckvs =>
          match resolve_main kvs ckvs with
          | none => none
          | some main_service =>
            match (kvs.lookup "services").getD (Yaml.map []) with
            | .map svcs =>
              (buildServices svcs).map fun parsed =>
                { app_id := app_id
                  title := _localized_string ((ckvs.lookup "title").getD .null)
                  description :=
                    _localized_string ((ckvs.lookup "description").getD .null)
                  icon := (ckvs.lookup "icon").getD (.s "")
                  developer := (ckvs.lookup "developer").getD (.s "Unknown")
                  category := (ckvs.lookup "category").getD (.s "Other")
                  port_map := (ckvs.lookup "port_map").getD (.s "80")
                  index := (ckvs.lookup "index").getD (.s "/")
                  main_service := main_service
                  screenshot_links :=
                    normalizeScreenshots
                      ((ckvs.lookup "screenshot_link").getD (.list []))
                  thumbnail := (ckvs.lookup "thumbnail").getD .null
                  repository_source := repository_source
                  compose_content := raw
                  services := parsed
                  architectures :=
                    (ckvs.lookup "architectures").getD (.list [.s "amd64"])
                  tags := (ckvs.lookup "tags").getD (.list []) }
            | _ => none
        | _ => none
      | _ => none

/-! ## `src/parsers/compose_schema.py` — `ComposeSchema` -/

/-- `ComposeParameter`: `required` is computed in `__init__` as
"no default value". -/
structure ComposeParameter where
  name : String
  default_value : Option String
  type : String
  description : String
  required : Bool
deriving DecidableEq

/-- The `ComposeParameter` constructor (`required = default_value is None`). -/
def ComposeParameter.make (name : String) (default_value : Option String)
    (ptype : String) (description : String) : ComposeParameter :=
  ⟨name, default_value, ptype, description, default_value.isNone⟩

/-- A regex of `ComposeSchema.TYPE_PATTERNS`: every pattern there is either a
bare literal (substring match) or a `$`-anchored literal (suffix match), both
under `re.IGNORECASE`. -/
inductive Pat where
  | sub (p : String)
  | suffix (p : String)

/-- `re.search(pattern, env_name, re.IGNORECASE)` for the two pattern shapes
(a bare literal matches anywhere, a `$`-anchored literal at the end). -/
def patMatches (env_name : String) : Pat → Bool
  | .sub p => ciInfixB p.data env_name.data
  | .suffix p => ciSuffixB p.data env_name.data

/-- The `"port"` patterns of `ComposeSchema.TYPE_PATTERNS`. -/
def portPatterns : List Pat := [.sub "PORT", .suffix "_PORT"]

/-- The `"int"` patterns of `ComposeSchema.TYPE_PATTERNS`. -/
def intPatterns : List Pat :=
  [.sub "PUID", .sub "PGID", .sub "UID", .sub "GID", .suffix "_ID",
   .sub "COUNT"]

/-- The `"path"` patterns of `ComposeSchema.TYPE_PATTERNS`. -/
def pathPatterns : List Pat := [.sub "PATH", .sub "DIR", .sub "VOLUME"]

/-- The `"bool"` patterns of `ComposeSchema.TYPE_PATTERNS`. -/
def boolPatterns : List Pat := [.sub "ENABLED", .sub "DEBUG", .sub "SECURE"]

/-- `ComposeSchema.TYPE_PATTERNS`, in declaration order. -/
def TYPE_PATTERNS : List (String × List Pat) :=
  [("port", portPatterns), ("int", intPatterns), ("path", pathPatterns),
   ("bool", boolPatterns)]

/-- Does `env_name` match some pattern of the class `pats`? -/
def matchesClass (pats : List Pat) (env_name : String) : Bool :=
  pats.any (patMatches env_name)

/-- `ComposeSchema.infer_type`: the double loop over `TYPE_PATTERNS` returns
the first class with a matching pattern, else `"string"`. -/
def infer_type (env_name : String) : String :=
  match TYPE_PATTERNS.find? (fun pc => matchesClass pc.2 env_name) with
  | some pc => pc.1
  | none => "string"

/-- `extract_schema`'s per-service `env_vars` construction: a mapping is used
as-is; a list keeps its `KEY=VALUE` strings, split at the first `=`, built up
by dict assignment (so a later duplicate key in the same list overwrites the
earlier value in place); any other shape gives the empty dict. -/
def envPairs (env : Yaml) : List (String × Yaml) :=
  match env with
  | .map kvs => kvs
  | .list items =>
    items.foldl
      (fun acc it =>
        match it with
        | .s str =>
          if str.data.contains '=' then
            let p := splitFirst str '='
            assocSet acc p.1 (.s p.2)
          else acc
        | _ => acc) []
  | _ => []

/-- The characters Python strips in `str(value).strip('${}')`. -/
def placeholderChars : List Char := "$\x7b\x7d".data

/-- `extract_schema`'s inner loop over one `env_vars` dict, threading the
`seen_env_vars` set: placeholder values (`str(value)` starting with `$`)
whose stripped variable name starts with `_` are skipped *without* marking
the key seen; other placeholders emit a required parameter; static values
emit an optional parameter with the stringified value as default. -/
def scanEnv (seen : List String) :
    List (String × Yaml) → List String × List ComposeParameter
  | [] => (seen, [])
  | (k, v) :: rest =>
    if seen.contains k then scanEnv seen rest
    else if pyStartsWith (pyStr v) "$" then
      if pyStartsWith (pyStrip (pyStr v) placeholderChars) "_" then
        scanEnv seen rest
      else
        let p := ComposeParameter.make k none (infer_type k)
          ("Environment variable " ++ k)
        let r := scanEnv (k :: seen) rest
        (r.1, p :: r.2)
    else
      let p := ComposeParameter.make k (some (pyStr v)) (infer_type k)
        ("Environment variable " ++ k)
      let r := scanEnv (k :: seen) rest
      (r.1, p :: r.2)

/-- `extract_schema`'s outer loop over the services: non-mapping service
configs are skipped, the `seen_env_vars` set persists across services. -/
def scanServices (st : List String × List ComposeParameter) :
    List (String × Yaml) → List String × List ComposeParameter
  | [] => st
  | sv :: rest =>
    match sv.2 with
    | .map cf =>
      let r := scanEnv st.1 (envPairs ((cf.lookup "environment").getD (.map [])))
      scanServices (r.1, st.2 ++ r.2) rest
    | _ => scanServices st rest

/-- The parameters `extract_schema` scans out of the services (everything
before the common variables are appended). -/
def scan_parameters (svcs : List (String × Yaml)) : List ComposeParameter :=
  (scanServices ([], []) svcs).2

/-- `extract_schema`'s `common_vars` (timezone, user id, group id). -/
def common_vars : List ComposeParameter :=
  [⟨"TZ", some "UTC", "string", "Timezone", false⟩,
   ⟨"PUID", some "1000", "int", "User ID", false⟩,
   ⟨"PGID", some "1000", "int", "Group ID", false⟩]

/-- `ComposeSchema.extract_schema`.  The manifest text's `yaml.safe_load`
result is the argument (`none` = the load raised, caught: the function prints
and returns `[]`).  The overall result is `none` when the body raises an
uncaught exception (`'services' not in compose` on a truthy scalar, `.get` on
a truthy non-mapping, `.items()` on a non-mapping `services` value) —
`extract_schema` has no handler for those. -/
def extract_schema (doc : Option Yaml) : Option (List ComposeParameter) :=
  match doc with
  | none => some []
  | some c =>
    if ¬ truthy c then some []
    else
      match ymem c "services" with
      | none => none
      | some false => some []
      | some true =>
        match c with
        | .map kvs =>
          match (kvs.lookup "services").getD (Yaml.map []) with
          | .map svcs =>
            let params := scan_parameters svcs
            let names := params.map (fun p => p.name)
            some (params ++
              common_vars.filter (fun cv => ¬ names.contains cv.name))
          | _ => none
        | _ => none

/-- `VolumeParameter`: `source`/`target` keep the raw YAML values the source
passes (`vol.get('source', '')` can return any value), `mode` is always one of
the strings the source builds. -/
structure VolumeParameter where
  source : Yaml
  target : Yaml
  service : String
  mode : String

/-- Python `vol.get('type') == 'bind'` on a volume record: true exactly when
the `type` key holds the string `"bind"`. -/
def isBindType (m : List (String × Yaml)) : Bool :=
  match m.lookup "type" with
  | some (.s t) => t = "bind"
  | _ => false

/-- The per-entry body of `extract_volumes`' loop: `none` = the entry is
skipped (named volume, colon-free string, non-bind record, or unrecognized
shape). -/
def processVol (service : String) (vol : Yaml) : Option VolumeParameter :=
  match vol with
  | .s v =>
    if v.data.contains ':' then
      let parts := pySplit v ':'
      let source := parts.headD ""
      let target := if parts.length > 1 then parts.getD 1 "" else ""
      let mode := if parts.length > 2 then parts.getD 2 "rw" else "rw"
      if ¬ pyStartsWith source "/" ∧ ¬ pyStartsWith source "." ∧
          ¬ pyStartsWith source "~" then none
      else some ⟨.s source, .s target, service, mode⟩
    else none
  | .map m =>
    if isBindType m then
      some ⟨(m.lookup "source").getD (.s ""), (m.lookup "target").getD (.s ""),
        service,
        if truthy ((m.lookup "read_only").getD (.b false)) then "ro" else "rw"⟩
    else none
  | _ => none

/-- `ComposeSchema.extract_volumes` (same calling convention as
`extract_schema`; here the `try` covers only the load, so iterating a
non-iterable `volumes` value propagates as `none`). -/
def extract_volumes (doc : Option Yaml) : Option (List VolumeParameter) :=
  match doc with
  | none => some []
  | some c =>
    if ¬ truthy c then some []
    else
      match ymem c "services" with
      | none => none
      | some false => some []
      | some true =>
        match c with
        | .map kvs =>
          match (kvs.lookup "services").getD (Yaml.map []) with
          | .map svcs =>
            svcs.foldlM
              (fun (acc : List VolumeParameter) (sv : String × Yaml) =>
                match sv.2 with
                | .map cf =>
                  (iterElems ((cf.lookup "volumes").getD (.list []))).map
                    (fun es => acc ++ es.filterMap (processVol sv.1))
                | _ => pure acc) []
          | _ => none
        | _ => none

/-- The result of an override application: either the untouched input text
(the early-return paths) or `yaml.dump` of the rewritten document.  `dump` is
kept symbolic: re-parsing a dumped result is the identity on the carried
document (PyYAML's round-trip contract). -/
inductive OverrideResult where
  | original (text : String)
  | dumped (doc : Yaml)

/-- One step of `apply_overrides`' mapping-form loop (`for key in overrides:
if key in env: env[key] = overrides[key]`). -/
def applyOvStep (acc : List (String × Yaml)) (kv : String × String) :
    List (String × Yaml) :=
  if acc.any (fun e => e.1 = kv.1) then assocSet acc kv.1 (.s kv.2) else acc

/-- One entry of `apply_overrides`' list-form rebuild: a `KEY=VALUE` string
with an overridden `KEY` becomes `KEY=newvalue`, everything else passes
through. -/
def overrideEnvItem (ov : List (String × String)) (it : Yaml) : Yaml :=
  match it with
  | .s str =>
    if str.data.contains '=' then
      let p := splitFirst str '='
      match ov.lookup p.1 with
      | some o => .s (p.1 ++ "=" ++ o)
      | none => it
    else it
  | _ => it

/-- The environment rewrite of `apply_overrides` for one `environment` value:
mapping entries whose key is an override key get the override value assigned
in place; list entries `KEY=VALUE` with an overridden `KEY` are rebuilt as
`KEY=newvalue`; anything else is untouched. -/
def applyEnvOverrides (ov : List (String × String)) (env : Yaml) : Yaml :=
  match env with
  | .map m => .map (ov.foldl applyOvStep m)
  | .list items => .list (items.map (overrideEnvItem ov))
  | e => e

/-- The per-service block of `apply_overrides`: only an `environment` key
holding a mapping or a list is rewritten (the mapping branch mutates the dict
in place, so a missing key leaves the config untouched; the list branch
assigns `service_config['environment']`). -/
def applyServiceOverrides (ov : List (String × String))
    (cf : List (String × Yaml)) : List (String × Yaml) :=
  match cf.lookup "environment" with
  | some (.map m) => assocSet cf "environment" (applyEnvOverrides ov (.map m))
  | some (.list l) => assocSet cf "environment" (applyEnvOverrides ov (.list l))
  | _ => cf

/-- `ComposeSchema.apply_overrides` (the spec's `apply_env_overrides`): early
returns hand back the input text; otherwise the document is rewritten
service by service and dumped.  `none` = an uncaught exception (the `try`
covers only `yaml.safe_load`). -/
def apply_overrides (content : String) (doc : Option Yaml)
    (ov : List (String × String)) : Option OverrideResult :=
  match doc with
  | none => some (.original content)
  | some c =>
    if ¬ truthy c then some (.original content)
    else
      match ymem c "services" with
      | none => none
      | some false => some (.original content)
      | some true =>
        match c with
        | .map kvs =>
          match (kvs.lookup "services").getD (Yaml.map []) with
          | .map svcs =>
            let rewritten := svcs.map
              (fun sv =>
                match sv.2 with
                | .map cf => (sv.1, Yaml.map (applyServiceOverrides ov cf))
                | _ => sv)
            some (.dumped (.map (assocSet kvs "services" (.map rewritten))))
          | _ => none
        | _ => none

/-- One volume entry of `apply_volume_overrides`: a colon-containing string
whose first field is an override key has that field replaced and the parts
re-joined; a `bind` record whose `source` is an override key has its `source`
reassigned; everything else passes through. -/
def applyVolEntry (ov : List (String × String)) (vol : Yaml) : Yaml :=
  match vol with
  | .s v =>
    if v.data.contains ':' then
      let parts := pySplit v ':'
      match parts.headD "" |> ov.lookup with
      | some o => .s (String.intercalate ":" (parts.set 0 o))
      | none => vol
    else vol
  | .map m =>
    if isBindType m then
      match (m.lookup "source").getD (.s "") with
      | .s sv =>
        match ov.lookup sv with
        | some o => .map (assocSet m "source" (.s o))
        | none => vol
      | _ => vol
    else vol
  | _ => vol

/-- The per-service block of `apply_volume_overrides`: the rebuilt list is
assigned back only when non-empty. -/
def applyServiceVolumeOverrides (ov : List (String × String))
    (cf : List (String × Yaml)) : Option (List (String × Yaml)) :=
  (iterElems ((cf.lookup "volumes").getD (.list []))).map fun es =>
    let new_volumes := es.map (applyVolEntry ov)
    if ¬ new_volumes.isEmpty then assocSet cf "volumes" (.list new_volumes)
    else cf

/-- `ComposeSchema.apply_volume_overrides` (same conventions as
`apply_overrides`). -/
def apply_volume_overrides (content : String) (doc : Option Yaml)
    (ov : List (String × String)) : Option OverrideResult :=
  match doc with
  | none => some (.original content)
  | some c =>
    if ¬ truthy c then some (.original content)
    else
      match ymem c "services" with
      | none => none
      | some false => some (.original content)
      | some true =>
        match c with
        | .map kvs =>
          match (kvs.lookup "services").getD (Yaml.map []) with
          | .map svcs =>
            (svcs.mapM
              (fun (sv : String × Yaml) =>
                match sv.2 with
                | .map cf =>
                  (applyServiceVolumeOverrides ov cf).map
                    (fun cf' => ((sv.1, Yaml.map cf') : String × Yaml))
                | _ => (pure sv : Option (String × Yaml)))).map
              (fun rewritten =>
                OverrideResult.dumped (.map (assocSet kvs "services" (.map rewritten))))
          | _ => none
        | _ => none

/-! ## `src/git_sync/__init__.py` — `GitSync`

The git library is external; its calls are modelled by an oracle record of
their observable outcomes.  A repository's on-disk cache state is
`Option σ`: `none` = the cache directory is absent, `some content` = it
exists with that content (σ abstracts directory contents; the claims only
compare contents for equality). -/

/-- The fields of `db.models.Repository` that `clone_or_update` reads. -/
structure RepoConfig where
  name : String
  url : String
  branch : String
  enabled : Bool

/-- Oracle for one `clone_or_update` call: the outcomes of the external git
operations it may perform. -/
structure GitOps (σ : Type) where
  /-- `Repo(str(repo_path))` followed by the `repo.remotes.origin.url`
  read: `none` = one of them raised (caught by the outer handler),
  `some u` = the recorded remote URL is `u`. -/
  openResult : Option String
  /-- `repo.remotes.origin.refs` succeeded (`_remote_has_branch` swallows a
  failure into `False`). -/
  refsOk : Bool
  /-- The branch names present on the remote (`ref.remote_head` values). -/
  remoteBranches : List String
  /-- `repo.remotes.origin.pull(branch)` succeeded. -/
  pullOk : Bool
  /-- Cache content after a successful pull. -/
  pullContent : σ
  /-- Cache content after a failed pull (the exception is caught; whatever
  the aborted transfer left behind remains). -/
  pullFailContent : σ
  /-- `Repo.clone_from(url, path, branch, depth=1)` succeeded. -/
  cloneOk : Bool
  /-- Cache content after a successful clone. -/
  cloneContent : σ
  /-- Cache state after a failed clone (`_clone_repo` only logs; partial
  clone artifacts may or may not exist). -/
  cloneFailState : Option σ

/-- `GitSync._remote_has_branch`: `any(ref.remote_head == branch …)`, with
any exception turned into `False`. -/
def _remote_has_branch {σ : Type} (ops : GitOps σ) (branch : String) : Bool :=
  ops.refsOk && ops.remoteBranches.contains branch

/-- `GitSync._clone_repo`: shallow-clone, reporting success; a failure is
caught and reported as `False`. -/
def _clone_repo {σ : Type} (ops : GitOps σ) : Bool × Option σ :=
  if ops.cloneOk then (true, some ops.cloneContent)
  else (false, ops.cloneFailState)

/-- `GitSync.clone_or_update` as a transition on the repository's cache
state, returning the reported success flag and the new state.  All the
source's paths are covered: open/origin failure (caught → `False`, cache
untouched), URL mismatch (`rmtree` then re-clone), missing remote branch
(`False`, cache untouched), pull (success / caught failure), and the
no-cache clone path. -/
def clone_or_update {σ : Type} (cache : Option σ) (cfg : RepoConfig)
    (ops : GitOps σ) : Bool × Option σ :=
  match cache with
  | some content =>
    match ops.openResult with
    | none => (false, some content)
    | some origin_url =>
      if origin_url ≠ "" ∧ origin_url ≠ cfg.url then
        _clone_repo ops
      else if ¬ _remote_has_branch ops cfg.branch then (false, some content)
      else if ops.pullOk then (true, some ops.pullContent)
      else (false, some ops.pullFailContent)
  | none => _clone_repo ops

/-! ### `GitSync.sync_all` and the shared catalog

`sync_all` mutates the shared `self.apps` dict in place: it first calls
`self.apps.clear()` and then, for each successfully synced repository, merges
that repository's scanned apps with `self.apps.update(apps_found)`.  A reader
(`get_all_apps` / `get_app`) at any point between those steps observes the
current dict.  The states a reader can observe during one `sync_all` run are
therefore: the pre-sync catalog, the cleared catalog, and each prefix of the
per-repository merges. -/

/-- Python `self.apps.update(batch)` on the catalog. -/
def catalogUpdate (cat : List (String × App)) (batch : List (String × App)) :
    List (String × App) :=
  batch.foldl (fun acc kv => assocSet acc kv.1 kv.2) cat

/-- The successive states of a catalog that starts at `cat` and merges each
batch in turn (every intermediate state included). -/
def catalogStates (cat : List (String × App)) :
    List (List (String × App)) → List (List (String × App))
  | [] => [cat]
  | batch :: rest => cat :: catalogStates (catalogUpdate cat batch) rest

/-- The catalog states observable by a concurrent reader across one
`sync_all` run, given the pre-sync catalog and the per-repository scan
results (in sync order, successful repositories only): the initial state,
then the state after `clear()`, then the state after each `update`. -/
def observableCatalogs (init : List (String × App))
    (batches : List (List (String × App))) : List (List (String × App)) :=
  init :: catalogStates [] batches

/-- The catalog contents when `sync_all` returns. -/
def finalCatalog (batches : List (List (String × App))) :
    List (String × App) :=
  batches.foldl catalogUpdate []

/-! ## Observation functions and concrete fixtures used by the theorems -/

/-- An environment value `extract_schema` skips entirely: a placeholder
(`str(value)` starts with `$`) whose stripped variable name starts with the
internal-use `_`. -/
def isInternalPlaceholder (v : Yaml) : Bool :=
  pyStartsWith (pyStr v) "$" &&
    pyStartsWith (pyStrip (pyStr v) placeholderChars) "_"

/-- The parameter `extract_schema` emits for key `k` at value `v` (placeholder
→ required without default, static → optional with the stringified value). -/
def scanParamFor (k : String) (v : Yaml) : ComposeParameter :=
  if pyStartsWith (pyStr v) "$" then
    ComposeParameter.make k none (infer_type k) ("Environment variable " ++ k)
  else
    ComposeParameter.make k (some (pyStr v)) (infer_type k)
      ("Environment variable " ++ k)

/-- The first occurrence of key `k` in an occurrence list whose value is not
an internal placeholder (the occurrence that actually decides `k`'s emitted
parameter). -/
def firstEmittable (k : String) : List (String × Yaml) → Option Yaml
  | [] => none
  | (k', v) :: rest =>
    if k' = k && ! isInternalPlaceholder v then some v
    else firstEmittable k rest

/-- All effective environment occurrences of a service list, concatenated in
document order (non-mapping service configs contribute nothing, mirroring
the scan). -/
def allOccs : List (String × Yaml) → List (String × Yaml)
  | [] => []
  | sv :: rest =>
    (match sv.2 with
     | .map cf => envPairs ((cf.lookup "environment").getD (.map []))
     | _ => []) ++ allOccs rest

/-- The bind-mount specification of claim C6 as amended, written from the
spec's words: a shorthand string entry is a bind mount iff it contains a
colon and the text before the first colon begins with `/`, `.` or `~`; its
target is the second colon-separated field and its mode the third when
present, else `"rw"`.  A record entry is a bind mount iff its declared type
is `"bind"`, with mode `"ro"` iff the read-only flag is set. -/
def bindMountSpec (service : String) (vol : Yaml) : Option VolumeParameter :=
  match vol with
  | .s v =>
    let src := (splitFirst v ':').1
    let rest := (splitFirst v ':').2
    if v.data.contains ':' ∧
        (pyStartsWith src "/" ∨ pyStartsWith src "." ∨ pyStartsWith src "~")
    then
      some ⟨.s src, .s (splitFirst rest ':').1, service,
        if rest.data.contains ':' then (splitFirst (splitFirst rest ':').2 ':').1
        else "rw"⟩
    else none
  | .map m =>
    if isBindType m then
      some ⟨(m.lookup "source").getD (.s ""), (m.lookup "target").getD (.s ""),
        service,
        if truthy ((m.lookup "read_only").getD (.b false)) then "ro" else "rw"⟩
    else none
  | _ => none

/-- The per-entry effect claim C7 states: an overridden key reads the
override value, any other key its original value. -/
def substS (ov : List (String × String)) (kv : String × String) :
    String × String :=
  (kv.1, (ov.lookup kv.1).getD kv.2)

/-- The same effect on a mapping-form environment entry before flattening. -/
def dictSubst (ov : List (String × String)) (kv : String × Yaml) :
    String × Yaml :=
  (kv.1, match ov.lookup kv.1 with | some o => Yaml.s o | none => kv.2)

/-- The flat environment of a service config as a reader of the rewritten
manifest sees it (non-mapping configs carry no environment). -/
def serviceEnv (cfg : Yaml) : List (String × String) :=
  match cfg with
  | .map cf => _flatten_env ((cf.lookup "environment").getD (.map []))
  | _ => []

/-- A service config's mapping-form environment has no duplicate keys (true
of every `yaml.safe_load` result; the association-list model must state it
explicitly). -/
def envKeysNodup (cfg : Yaml) : Prop :=
  ∀ cf m, cfg = Yaml.map cf → cf.lookup "environment" = some (Yaml.map m) →
    (m.map Prod.fst).Nodup

/-- A minimal `App` value (for the catalog counterexample). -/
def sampleApp (i : String) : App :=
  { app_id := i, title := .s "", description := .s "", icon := .s "",
    developer := .s "", category := .s "", port_map := .s "", index := .s "",
    main_service := .s "m", screenshot_links := .list [], thumbnail := .null,
    repository_source := "r", compose_content := "c", services := [],
    architectures := .list [], tags := .list [] }

/-- A manifest document whose only `x-casaos` entry is `main: web` and which
declares no services (`yaml.safe_load` of
`"x-casaos:\n  main: web\n"`). -/
def c2doc : Yaml := .map [("x-casaos", .map [("main", .s "web")])]

/-- The `App` that `parse_app` builds from `c2doc`. -/
def c2App : App :=
  { app_id := "id", title := .s "", description := .s "", icon := .s "",
    developer := .s "Unknown", category := .s "Other", port_map := .s "80",
    index := .s "/", main_service := .s "web", screenshot_links := .list [],
    thumbnail := .null, repository_source := "repo", compose_content := "raw",
    services := [], architectures := .list [.s "amd64"], tags := .list [] }

/-- A manifest whose single service has the single environment entry
`FOO: "$_X"` — a placeholder referencing the internal variable `_X`. -/
def c3doc : Yaml :=
  .map [("services",
    .map [("web", .map [("environment", .map [("FOO", .s "$_X")])])])]

/-- The volume example of claim C6: one bind mount and one named volume. -/
def c6doc : Yaml :=
  .map [("services",
    .map [("web",
      .map [("volumes",
        .list [.s "/data/host:/data:ro", .s "named_vol:/var/lib/x"])])])]

/-- A manifest whose single service's volume list is the single colon-free
path string `"/data"`. -/
def c6cexDoc : Yaml :=
  .map [("services", .map [("web", .map [("volumes", .list [.s "/data"])])])]

/-- The manifest of the spec's override example: one service with
environment `PORT: "8080"`, `DEBUG: "true"`. -/
def c7doc : List (String × Yaml) :=
  [("services",
    .map [("web",
      .map [("environment", .map [("PORT", .s "8080"), ("DEBUG", .s "true")])])])]

/-- A concrete git oracle for the missing-branch witness: the cache opens
fine, its recorded remote URL is the configured one, and the remote
publishes no branches. -/
def c9ops : GitOps String :=
  { openResult := some "https://example.org/repo.git", refsOk := true,
    remoteBranches := ["master"], pullOk := true, pullContent := "pulled",
    pullFailContent := "partial", cloneOk := true, cloneContent := "cloned",
    cloneFailState := none }

/-- The repository configuration for the missing-branch witness. -/
def c9cfg : RepoConfig :=
  { name := "repo", url := "https://example.org/repo.git", branch := "main",
    enabled := true }

/-! ## Helper lemmas -/

/-- A successful lookup means some entry carries the key. -/
theorem lookup_any {β : Type} (k : String) (v : β) :
    ∀ l : List (String × β), l.lookup k = some v →
      l.any (fun kv => kv.1 = k) = true := by
  intro l
  induction l with
  | nil => intro h; cases h
  | cons kv rest ih =>
    intro h
    rw [List.lookup] at h
    by_cases hk : k = kv.1
    · simp [hk.symm]
    · have hb : (k == kv.1) = false := beq_false_of_ne hk
      rw [hb] at h
      simp only [List.any_cons, ih h, Bool.or_true]

/-- Dict assignment makes the assigned key read back the assigned value. -/
theorem assocSet_lookup_self {α : Type} (k : String) (v : α) :
    ∀ l : List (String × α), (assocSet l k v).lookup k = some v := by
  intro l
  induction l with
  | nil => simp [assocSet, List.lookup]
  | cons kv rest ih =>
    by_cases hk : kv.1 = k
    · simp [assocSet, hk, List.lookup]
    · have hb : (k == kv.1) = false := beq_false_of_ne (Ne.symm hk)
      simp [assocSet, hk, List.lookup, hb, ih]

/-- Splitting at the first `c` past a `c`-free prefix. -/
theorem splitFirstList_append (c : Char) (v : List Char) :
    ∀ k : List Char, c ∉ k → splitFirstList c (k ++ c :: v) = (k, v) := by
  intro k
  induction k with
  | nil => intro _; simp [splitFirstList]
  | cons a k ih =>
    intro h
    have ha : ¬ a = c := fun hac => h (hac ▸ List.mem_cons_self a k)
    have hk : c ∉ k := fun hc => h (List.mem_cons_of_mem a hc)
    simp [splitFirstList, ha, ih hk]

/-- The starting catalog is one of the observable merge states. -/
theorem catalogStates_self_mem :
    ∀ (batches : List (List (String × App))) (cat : List (String × App)),
      cat ∈ catalogStates cat batches := by
  intro batches
  cases batches with
  | nil => intro cat; simp [catalogStates]
  | cons b rest => intro cat; simp [catalogStates]

/-- The merge states end with the fully merged catalog. -/
theorem catalogStates_concat :
    ∀ (batches : List (List (String × App))) (cat : List (String × App)),
      ∃ pre, catalogStates cat batches =
        pre ++ [batches.foldl catalogUpdate cat] := by
  intro batches
  induction batches with
  | nil => intro cat; exact ⟨[], rfl⟩
  | cons b rest ih =>
    intro cat
    obtain ⟨pre, hp⟩ := ih (catalogUpdate cat b)
    exact ⟨cat :: pre, by simp [catalogStates, hp]⟩

/-! ## Claim C1 — `sync_all` and the shared catalog -/

/-- Claim C1, counterexample: with a non-empty pre-sync catalog (one app
`"a"`) and one repository batch (app `"b"`), a reader can observe the empty
catalog — the state right after `self.apps.clear()` — which is neither the
complete catalog from before the sync nor the complete one after it.  So
`sync_all` does *not* publish via an atomic swap. -/
theorem c1_counterexample :
    ([] : List (String × App)) ∈
      observableCatalogs [("a", sampleApp "a")] [[("b", sampleApp "b")]] ∧
    ([] : List (String × App)) ≠ [("a", sampleApp "a")] ∧
    ([] : List (String × App)) ≠ finalCatalog [[("b", sampleApp "b")]] := by
  refine ⟨?_, by simp, ?_⟩
  · simp [observableCatalogs, catalogStates]
  · simp [finalCatalog, catalogUpdate, assocSet]

/-- Claim C1 as amended: `sync_all` rebuilds the shared catalog *in place* —
it clears the mapping and then merges each repository's scan results one
`update` at a time, so a concurrent reader observes the pre-sync catalog,
the cleared (empty) catalog, or any partial merge; the last observable state
is the complete merged catalog. -/
theorem c1_sync_states (init : List (String × App))
    (batches : List (List (String × App))) :
    (observableCatalogs init batches).head? = some init ∧
    [] ∈ observableCatalogs init batches ∧
    ∃ pre, observableCatalogs init batches = pre ++ [finalCatalog batches] := by
  refine ⟨rfl, List.mem_cons_of_mem _ (catalogStates_self_mem batches []), ?_⟩
  obtain ⟨pre, hp⟩ := catalogStates_concat batches []
  exact ⟨init :: pre, by simp [observableCatalogs, hp, finalCatalog]⟩

/-! ## Claim C5 — `infer_type` first-match priority -/

/-- Claim C5: `infer_type` tests the pattern classes in the fixed priority
order port, int, path, bool, returning the first matching class's type and
`"string"` when none matches; in particular a name matching both a port-like
and an id/count-like pattern infers `"port"`. -/
theorem c5_infer_type_priority (env_name : String) :
    infer_type env_name =
      (if matchesClass portPatterns env_name then "port"
       else if matchesClass intPatterns env_name then "int"
       else if matchesClass pathPatterns env_name then "path"
       else if matchesClass boolPatterns env_name then "bool"
       else "string") ∧
    (matchesClass portPatterns env_name = true →
      matchesClass intPatterns env_name = true →
      infer_type env_name = "port") := by
  have h : infer_type env_name =
      (if matchesClass portPatterns env_name then "port"
       else if matchesClass intPatterns env_name then "int"
       else if matchesClass pathPatterns env_name then "path"
       else if matchesClass boolPatterns env_name then "bool"
       else "string") := by
    unfold infer_type TYPE_PATTERNS
    cases h1 : matchesClass portPatterns env_name <;>
      cases h2 : matchesClass intPatterns env_name <;>
        cases h3 : matchesClass pathPatterns env_name <;>
          cases h4 : matchesClass boolPatterns env_name <;>
            simp [List.find?, h1, h2, h3, h4]
  exact ⟨h, fun hp _ => by rw [h, if_pos hp]⟩

/-- Claim C5, witness: `"UID_PORT"` matches both a port pattern and an
id pattern, and infers `"port"`. -/
theorem c5_witness :
    matchesClass portPatterns "UID_PORT" = true ∧
    matchesClass intPatterns "UID_PORT" = true ∧
    infer_type "UID_PORT" = "port" :=
  ⟨by decide, by decide,
    (c5_infer_type_priority "UID_PORT").2 (by decide) (by decide)⟩

/-! ## Claim C8 — environment normalization is form-independent -/

/-- Claim C8, counterexample: for the key `"A=B"` (which contains `=`) and
value `"c"`, the two forms normalize differently — the list form re-splits at
the *first* `=`, the mapping form keeps the key whole.  The claim's "for
every key k and value v" is therefore too strong. -/
theorem c8_counterexample :
    _flatten_env (.list [.s "A=B=c"]) = [("A", "B=c")] ∧
    _flatten_env (.map [("A=B", .s "c")]) = [("A=B", "c")] ∧
    ([("A", "B=c")] : List (String × String)) ≠ [("A=B", "c")] :=
  ⟨rfl, rfl, by decide⟩

/-- Claim C8 as amended: for every key `k` that does not contain `=` and
every value string `v`, the list form `["k=v"]` and the mapping form
`{k: v}` normalize to the identical flat mapping `{k: v}`. -/
theorem c8_flatten_env_forms (k v : String) (h : '=' ∉ k.data) :
    _flatten_env (.list [.s (k ++ "=" ++ v)]) = [(k, v)] ∧
    _flatten_env (.map [(k, .s v)]) = [(k, v)] := by
  refine ⟨?_, rfl⟩
  have hd : (k ++ "=" ++ v).data = k.data ++ '=' :: v.data := by
    simp [String.data_append]
  have hc : (k ++ "=" ++ v).data.contains '=' = true := by
    rw [hd]; simp
  have hs : splitFirst (k ++ "=" ++ v) '=' = (k, v) := by
    unfold splitFirst
    rw [hd, splitFirstList_append '=' v.data k.data h]
  simp [_flatten_env, flattenListStep, hc, hs, assocSet]

/-- Claim C8, witness: the spec's own example `["FOO=bar"]` vs
`{"FOO": "bar"}`. -/
theorem c8_witness :
    '=' ∉ ("FOO" : String).data ∧
    _flatten_env (.list [.s "FOO=bar"]) = [("FOO", "bar")] ∧
    _flatten_env (.map [("FOO", .s "bar")]) = [("FOO", "bar")] :=
  ⟨by decide, (c8_flatten_env_forms "FOO" "bar" (by decide)).1,
    (c8_flatten_env_forms "FOO" "bar" (by decide)).2⟩

/-! ## Claim C9 — missing remote branch leaves the cache untouched -/

/-- Claim C9: when the cache exists, its recorded remote URL equals the
configured URL, and the configured branch is absent from the remote,
`clone_or_update` reports failure and returns the cache state unchanged —
no deletion, no pull, no re-clone. -/
theorem c9_missing_branch {σ : Type} (content : σ) (cfg : RepoConfig)
    (ops : GitOps σ) (hopen : ops.openResult = some cfg.url)
    (hbranch : cfg.branch ∉ ops.remoteBranches) :
    clone_or_update (some content) cfg ops = (false, some content) := by
  have hnb : _remote_has_branch ops cfg.branch = false := by
    unfold _remote_has_branch
    simp [hbranch]
  simp [clone_or_update, hopen, hnb]

/-- Claim C9, witness: a concrete cache/oracle where branch `main` is absent
on the remote. -/
theorem c9_witness :
    c9ops.openResult = some c9cfg.url ∧
    c9cfg.branch ∉ c9ops.remoteBranches ∧
    clone_or_update (some "cache") c9cfg c9ops = (false, some "cache") :=
  ⟨rfl, by decide, c9_missing_branch "cache" c9cfg c9ops rfl (by decide)⟩

/-! ## Claim C10 — override appliers on unusable documents -/

/-- Claim C10, counterexample: the input text `"5"` parses to the truthy
scalar `5`, which has no `services` key; the claim demands both override
functions return the input unchanged, but the membership test
`'services' not in compose` raises an uncaught `TypeError` (modelled as
`none`), so nothing is returned at all. -/
theorem c10_counterexample :
    apply_overrides "5" (some (.i 5)) [] = none ∧
    apply_volume_overrides "5" (some (.i 5)) [] = none :=
  ⟨rfl, rfl⟩

/-- Claim C10 as amended: for input text that does not parse, parses to a
falsy document, or parses to a membership-testable document (mapping,
string or list) without `services`, both override functions return the
input text unchanged; truthy documents that do not support membership
testing (numbers, booleans) instead raise. -/
theorem c10_identity_on_error (content : String) (doc : Option Yaml)
    (ov : List (String × String))
    (h : doc = none ∨
      ∃ d, doc = some d ∧ (truthy d = false ∨ ymem d "services" = some false)) :
    apply_overrides content doc ov = some (.original content) ∧
    apply_volume_overrides content doc ov = some (.original content) := by
  rcases h with rfl | ⟨d, rfl, h | h⟩
  · exact ⟨rfl, rfl⟩
  · constructor <;> simp [apply_overrides, apply_volume_overrides, h]
  · constructor <;>
      (cases ht : truthy d <;>
        simp [apply_overrides, apply_volume_overrides, ht, h])

/-- Claim C10, witness: a parseable mapping document without a `services`
key is handed back unchanged by both functions. -/
theorem c10_witness :
    ymem (.map [("a", .s "b")]) "services" = some false ∧
    apply_overrides "x" (some (.map [("a", .s "b")])) [] =
      some (.original "x") ∧
    apply_volume_overrides "x" (some (.map [("a", .s "b")])) [] =
      some (.original "x") :=
  ⟨rfl,
    (c10_identity_on_error "x" (some (.map [("a", .s "b")])) []
      (Or.inr ⟨_, rfl, Or.inr rfl⟩)).1,
    (c10_identity_on_error "x" (some (.map [("a", .s "b")])) []
      (Or.inr ⟨_, rfl, Or.inr rfl⟩)).2⟩

/-! ## Claim C2 — `parse_app` main-service invariant -/

/-- Claim C2, counterexample: a manifest whose `x-casaos` block declares
`main: web` but which has no services at all still produces an `App`; its
`main_service` is `web`, which is not a key of its (empty) `services`
mapping — refuting both halves of the claim (`main_service ∈ services` and
"zero services ⇒ no App"). -/
theorem c2_counterexample :
    parse_app (some c2doc) "raw" "id" "repo" = some c2App ∧
    c2App.services = [] ∧
    c2App.main_service = .s "web" :=
  ⟨rfl, rfl, rfl⟩

/-- Claim C2 as amended: whenever `parse_app` returns an `App`, its
`main_service` is the resolved main — the truthy `x-casaos.main` value when
present, else the first service key — which need not be a key of the
services mapping; and when neither resolves (in particular when the
manifest declares zero services and no truthy `x-casaos.main`), no `App` is
produced. -/
theorem c2_main_service :
    (∀ c raw i p app, parse_app (some c) raw i p = some app →
      ∃ kvs ckvs m, c = .map kvs ∧
        (kvs.lookup "x-casaos").getD (.map []) = .map ckvs ∧
        resolve_main kvs ckvs = some m ∧ app.main_service = m) ∧
    (∀ kvs ckvs raw i p,
      (kvs.lookup "x-casaos").getD (.map []) = .map ckvs →
      truthy ((ckvs.lookup "main").getD .null) = false →
      (kvs.lookup "services").getD (.map []) = .map [] →
      parse_app (some (.map kvs)) raw i p = none) := by
  constructor
  · intro c raw i p app happ
    cases c with
    | map kvs =>
      simp only [parse_app] at happ
      by_cases ht : truthy (Yaml.map kvs) = true
      swap
      · rw [if_pos ht] at happ; cases happ
      rw [if_neg (by simp [ht])] at happ
      split at happ
      case _ ckvs heq =>
        split at happ
        case _ => cases happ
        case _ m hres =>
          split at happ
          case _ svcs heq2 =>
            rw [Option.map_eq_some'] at happ
            obtain ⟨parsed, _, happ⟩ := happ
            exact ⟨kvs, ckvs, m, rfl, heq, hres, by rw [← happ]⟩
          case _ => cases happ
      case _ => cases happ
    | s v => simp [parse_app, ite_self] at happ
    | i v => simp [parse_app, ite_self] at happ
    | b v => simp [parse_app, ite_self] at happ
    | null => simp [parse_app, ite_self] at happ
    | list xs => simp [parse_app, ite_self] at happ
  · intro kvs ckvs raw i p hx hm hs
    cases ht : truthy (.map kvs)
    · simp [parse_app, ht]
    · have hr : resolve_main kvs ckvs = none := by
        simp [resolve_main, hm, hs]
      simp [parse_app, ht, hx, hr]

/-- Claim C2, witness: the first conjunct applied to a two-service manifest
with no `x-casaos` (main resolves to the first service key), the second to a
manifest with neither services nor `x-casaos.main`. -/
theorem c2_witness :
    (∃ app, parse_app
        (some (.map [("services", .map [("web", .map []), ("db", .map [])])]))
        "r" "i" "p" = some app ∧
      ∃ kvs ckvs m,
        (Yaml.map [("services", .map [("web", .map []), ("db", .map [])])]) =
          .map kvs ∧
        (kvs.lookup "x-casaos").getD (.map []) = .map ckvs ∧
        resolve_main kvs ckvs = some m ∧ app.main_service = m) ∧
    parse_app (some (.map [("x", .s "y")])) "r" "i" "p" = none := by
  constructor
  · obtain ⟨kvs, ckvs, m, h1, h2, h3, h4⟩ :=
      c2_main_service.1 (.map [("services", .map [("web", .map []), ("db", .map [])])])
        "r" "i" "p" _ rfl
    exact ⟨_, rfl, kvs, ckvs, m, h1, h2, h3, h4⟩
  · exact c2_main_service.2 [("x", .s "y")] [] "r" "i" "p" rfl rfl rfl

/-! ## Claim C4 — appended common parameters -/

/-- Claim C4, counterexample: the empty manifest (its text loads to the
falsy document `null`) makes `extract_schema` return `[]` — which does not
end with `TZ`/`PUID`/`PGID` although none of those names was discovered —
so the unrestricted "for every manifest text" fails on the early-exit
paths. -/
theorem c4_counterexample :
    extract_schema (some Yaml.null) = some [] ∧
    common_vars.map (fun cv => cv.name) = ["TZ", "PUID", "PGID"] :=
  ⟨rfl, rfl⟩

/-- Claim C4 as amended: for every manifest whose document is truthy and
carries a `services` mapping, `extract_schema` returns the scanned
parameters followed by the common parameters `TZ` (default `"UTC"`),
`PUID` (default `"1000"`), `PGID` (default `"1000"`), each appended exactly
when no scanned parameter already has that name. -/
theorem c4_common_append (kvs : List (String × Yaml))
    (svcs : List (String × Yaml)) (ht : truthy (.map kvs) = true)
    (hs : kvs.lookup "services" = some (.map svcs)) :
    ∃ appended,
      extract_schema (some (.map kvs)) =
        some (scan_parameters svcs ++ appended) ∧
      ∀ cv ∈ common_vars,
        (cv ∈ appended ↔
          ((scan_parameters svcs).map (fun p => p.name)).contains cv.name =
            false) := by
  have hany : kvs.any (fun kv => kv.1 = "services") = true :=
    lookup_any "services" (.map svcs) kvs hs
  refine ⟨common_vars.filter
    (fun cv =>
      ¬ ((scan_parameters svcs).map (fun p => p.name)).contains cv.name), ?_, ?_⟩
  · simp [extract_schema, ht, ymem, hany, hs]
  · intro cv hcv
    rw [List.mem_filter]
    simp [hcv]

/-- Claim C4, witness: a one-service manifest with an empty config. -/
theorem c4_witness :
    truthy (.map [("services", .map [("web", .map [])])]) = true ∧
    ([("services", Yaml.map [("web", .map [])])].lookup "services" =
      some (.map [("web", .map [])])) ∧
    ∃ appended,
      extract_schema (some (.map [("services", .map [("web", .map [])])])) =
        some (scan_parameters [("web", .map [])] ++ appended) ∧
      ∀ cv ∈ common_vars,
        (cv ∈ appended ↔
          ((scan_parameters [("web", .map [])]).map (fun p => p.name)).contains
            cv.name = false) :=
  ⟨rfl, rfl, c4_common_append _ _ rfl rfl⟩

/-! ## Claim C6 helpers -/

/-- Python `split` never returns an empty list. -/
theorem pySplitL_ne_nil (c : Char) : ∀ l : List Char, pySplitL c l ≠ [] := by
  intro l
  cases l with
  | nil => simp [pySplitL]
  | cons a rest =>
    simp only [pySplitL]
    by_cases ha : a = c
    · simp [ha]
    · simp only [if_neg ha]
      cases h : pySplitL c rest with
      | nil => simp
      | cons s ss => simp

/-- With the separator absent, Python `split` returns the whole input. -/
theorem pySplitL_no_sep (c : Char) :
    ∀ l : List Char, c ∉ l → pySplitL c l = [l] := by
  intro l
  induction l with
  | nil => intro _; rfl
  | cons a rest ih =>
    intro h
    have ha : ¬ a = c := fun hac => h (hac ▸ List.mem_cons_self a rest)
    have hr : c ∉ rest := fun hc => h (List.mem_cons_of_mem a hc)
    simp [pySplitL, ha, ih hr]

/-- With the separator absent, splitting at the first occurrence returns the
whole input and an empty remainder. -/
theorem splitFirstList_no_sep (c : Char) :
    ∀ l : List Char, c ∉ l → splitFirstList c l = (l, []) := by
  intro l
  induction l with
  | nil => intro _; rfl
  | cons a rest ih =>
    intro h
    have ha : ¬ a = c := fun hac => h (hac ▸ List.mem_cons_self a rest)
    have hr : c ∉ rest := fun hc => h (List.mem_cons_of_mem a hc)
    simp [splitFirstList, ha, ih hr]

/-- With the separator present, Python `split` yields the first field
followed by the split of the remainder. -/
theorem pySplitL_sep (c : Char) :
    ∀ l : List Char, c ∈ l →
      pySplitL c l =
        (splitFirstList c l).1 :: pySplitL c (splitFirstList c l).2 := by
  intro l
  induction l with
  | nil => intro h; cases h
  | cons a rest ih =>
    intro h
    by_cases ha : a = c
    · simp [pySplitL, splitFirstList, ha]
    · have hr : c ∈ rest := by
        cases List.mem_cons.mp h with
        | inl he => exact absurd he.symm ha
        | inr hm => exact hm
      simp only [pySplitL, splitFirstList, if_neg ha]
      rw [ih hr]

/-- The head of a Python `split` is always the text before the first
separator. -/
theorem pySplitL_head (c : Char) (l : List Char) :
    ∃ t, pySplitL c l = (splitFirstList c l).1 :: t := by
  by_cases h : c ∈ l
  · exact ⟨_, pySplitL_sep c l h⟩
  · rw [pySplitL_no_sep c l h, splitFirstList_no_sep c l h]
    exact ⟨[], rfl⟩

/-- The per-entry loop body of `extract_volumes` agrees with the bind-mount
specification. -/
theorem processVol_spec (service : String) (vol : Yaml) :
    processVol service vol = bindMountSpec service vol := by
  cases vol with
  | s v =>
    simp only [processVol, bindMountSpec]
    by_cases hc : ':' ∈ v.data
    swap
    · simp [hc]
    have hsp := pySplitL_sep ':' v.data hc
    have hsf : splitFirst v ':' =
        (⟨(splitFirstList ':' v.data).1⟩, ⟨(splitFirstList ':' v.data).2⟩) :=
      rfl
    have hparts : pySplit v ':' =
        (⟨(splitFirstList ':' v.data).1⟩ : String) ::
          (pySplitL ':' (splitFirstList ':' v.data).2).map
            (fun l => (⟨l⟩ : String)) := by
      rw [pySplit, hsp]; rfl
    by_cases hr : ':' ∈ (splitFirstList ':' v.data).2
    · have h2 := pySplitL_sep ':' _ hr
      obtain ⟨t2, ht2⟩ :=
        pySplitL_head ':' (splitFirstList ':' (splitFirstList ':' v.data).2).2
      rw [h2, ht2] at hparts
      have hrd : ':' ∈ (String.mk (splitFirstList ':' v.data).2).data := hr
      simp only [hparts, hsf, hc, hrd, splitFirst]
      by_cases h1 : pyStartsWith ⟨(splitFirstList ':' v.data).1⟩ "/" = true <;>
        by_cases hd : pyStartsWith ⟨(splitFirstList ':' v.data).1⟩ "." = true <;>
          by_cases h3 : pyStartsWith ⟨(splitFirstList ':' v.data).1⟩ "~" = true <;>
            simp [h1, hd, h3, hc, hr]
    · have h2 := pySplitL_no_sep ':' _ hr
      have hsf2 := splitFirstList_no_sep ':' _ hr
      rw [h2] at hparts
      have hrd : ':' ∉ (String.mk (splitFirstList ':' v.data).2).data := hr
      simp only [hparts, hsf, hc, hrd, splitFirst, hsf2]
      by_cases h1 : pyStartsWith ⟨(splitFirstList ':' v.data).1⟩ "/" = true <;>
        by_cases hd : pyStartsWith ⟨(splitFirstList ':' v.data).1⟩ "." = true <;>
          by_cases h3 : pyStartsWith ⟨(splitFirstList ':' v.data).1⟩ "~" = true <;>
            simp [h1, hd, h3, hc, hr]
  | map m => rfl
  | i n => rfl
  | b bv => rfl
  | null => rfl
  | list xs => rfl

/-- Claim C6, counterexample: the volume entry `"/data"` is a shorthand
string whose source — the text before the first `:`, here the whole string —
begins with `/`, yet `extract_volumes` yields nothing for it: the code
requires a `:` in the string before even looking at the source.  The
claimed "if and only if" therefore fails for colon-free path strings. -/
theorem c6_counterexample :
    extract_volumes (some c6cexDoc) = some [] ∧
    pyStartsWith "/data" "/" = true :=
  ⟨rfl, rfl⟩

/-- Claim C6 as amended: a shorthand string entry yields a `VolumeParameter`
iff it contains `:` *and* its source (text before the first `:`) begins with
`/`, `.` or `~`, with target the second `:`-field and mode the third when
present else `"rw"`; a structured record yields one iff its type is
`"bind"`, with mode `"ro"` iff its read-only flag is truthy; everything
else — bare named volumes included — is excluded.  On the spec's example the
bind mount alone is extracted. -/
theorem c6_bind_mounts :
    (∀ service vol, processVol service vol = bindMountSpec service vol) ∧
    extract_volumes (some c6doc) =
      some [⟨.s "/data/host", .s "/data", "web", "ro"⟩] :=
  ⟨processVol_spec, rfl⟩

/-! ## Claim C3 — schema-extraction scan -/

/-- Keys already in the seen set never emit a parameter. -/
theorem scanEnv_seen_filter (k : String) :
    ∀ (occs : List (String × Yaml)) (seen : List String),
      seen.contains k = true →
      (scanEnv seen occs).2.filter (fun p => p.name = k) = [] := by
  intro occs
  induction occs with
  | nil => intro seen _; rfl
  | cons kv rest ih =>
    intro seen h
    obtain ⟨k', v⟩ := kv
    by_cases hk' : seen.contains k' = true
    · simp only [scanEnv, hk', if_true]
      exact ih seen h
    · have hk'2 : seen.contains k' = false := eq_false_of_ne_true hk'
      have hkk : ¬ k' = k := by
        intro he
        rw [he, h] at hk'2
        cases hk'2
      have hseen : (k' :: seen).contains k = true := by
        have hm : k ∈ seen := by simpa using h
        simp [hm]
      by_cases hph : pyStartsWith (pyStr v) "$" = true
      · by_cases hint :
            pyStartsWith (pyStrip (pyStr v) placeholderChars) "_" = true
        · simp only [scanEnv, hk'2, hph, hint]
          simp only [Bool.false_eq_true, if_false, if_true]
          exact ih seen h
        · have hint2 := eq_false_of_ne_true hint
          simp only [scanEnv, hk'2, hph, hint2]
          simp only [Bool.false_eq_true, if_false, if_true]
          rw [List.filter_cons]
          simp only [ComposeParameter.make, decide_eq_true_eq]
          rw [if_neg (by simpa using hkk)]
          exact ih (k' :: seen) hseen
      · have hph2 := eq_false_of_ne_true hph
        simp only [scanEnv, hk'2, hph2]
        simp only [Bool.false_eq_true, if_false]
        rw [List.filter_cons]
        simp only [ComposeParameter.make, decide_eq_true_eq]
        rw [if_neg (by simpa using hkk)]
        exact ih (k' :: seen) hseen

/-- For an unseen key, the emitted parameters for that key are exactly the
one decided by its first non-internal occurrence. -/
theorem scanEnv_unseen_filter (k : String) :
    ∀ (occs : List (String × Yaml)) (seen : List String),
      seen.contains k = false →
      (scanEnv seen occs).2.filter (fun p => p.name = k) =
        (match firstEmittable k occs with
         | none => []
         | some v => [scanParamFor k v]) := by
  intro occs
  induction occs with
  | nil => intro seen _; rfl
  | cons kv rest ih =>
    intro seen h
    obtain ⟨k', v⟩ := kv
    by_cases hk' : seen.contains k' = true
    · have hkk : ¬ k' = k := by
        intro he
        rw [he, h] at hk'
        cases hk'
      simp only [scanEnv, hk', if_true, firstEmittable]
      rw [ih seen h, if_neg (by simp [hkk])]
    · have hk'2 : seen.contains k' = false := eq_false_of_ne_true hk'
      by_cases hph : pyStartsWith (pyStr v) "$" = true
      · by_cases hint :
            pyStartsWith (pyStrip (pyStr v) placeholderChars) "_" = true
        · simp only [scanEnv, hk'2, hph, hint]
          simp only [Bool.false_eq_true, if_false, if_true]
          rw [ih seen h]
          simp only [firstEmittable]
          rw [if_neg (by simp [isInternalPlaceholder, hph, hint])]
        · have hint2 := eq_false_of_ne_true hint
          simp only [scanEnv, hk'2, hph, hint2]
          simp only [Bool.false_eq_true, if_false, if_true]
          rw [List.filter_cons]
          by_cases hkk : k' = k
          · subst hkk
            simp only [ComposeParameter.make, decide_eq_true_eq, if_pos rfl]
            have hseen : (k' :: seen).contains k' = true := by simp
            rw [scanEnv_seen_filter k' rest (k' :: seen) hseen]
            have hip : isInternalPlaceholder v = false := by
              simp [isInternalPlaceholder, hph, hint2]
            simp [firstEmittable, hip, scanParamFor, hph, ComposeParameter.make]
          · have hseen : (k' :: seen).contains k = false := by
              have hkn : ¬ k = k' := fun he => hkk he.symm
              have hm : k ∉ seen := by simpa using h
              simp [hkn, hm]
            simp only [ComposeParameter.make, decide_eq_true_eq]
            rw [if_neg (by simpa using hkk)]
            rw [ih (k' :: seen) hseen]
            simp only [firstEmittable]
            rw [if_neg (by simp [hkk])]
      · have hph2 := eq_false_of_ne_true hph
        simp only [scanEnv, hk'2, hph2]
        simp only [Bool.false_eq_true, if_false]
        rw [List.filter_cons]
        by_cases hkk : k' = k
        · subst hkk
          simp only [ComposeParameter.make, decide_eq_true_eq, if_pos rfl]
          have hseen : (k' :: seen).contains k' = true := by simp
          rw [scanEnv_seen_filter k' rest (k' :: seen) hseen]
          have hip : isInternalPlaceholder v = false := by
            simp [isInternalPlaceholder, hph2]
          simp [firstEmittable, hip, scanParamFor, hph2, ComposeParameter.make]
        · have hseen : (k' :: seen).contains k = false := by
            have hkn : ¬ k = k' := fun he => hkk he.symm
            have hm : k ∉ seen := by simpa using h
            simp [hkn, hm]
          simp only [ComposeParameter.make, decide_eq_true_eq]
          rw [if_neg (by simpa using hkk)]
          rw [ih (k' :: seen) hseen]
          simp only [firstEmittable]
          rw [if_neg (by simp [hkk])]

/-- Scanning a concatenated occurrence list threads the seen set through and
concatenates the emitted parameters. -/
theorem scanEnv_append :
    ∀ (a b : List (String × Yaml)) (seen : List String),
      scanEnv seen (a ++ b) =
        ((scanEnv (scanEnv seen a).1 b).1,
          (scanEnv seen a).2 ++ (scanEnv (scanEnv seen a).1 b).2) := by
  intro a
  induction a with
  | nil => intro b seen; simp [scanEnv]
  | cons kv rest ih =>
    intro b seen
    obtain ⟨k', v⟩ := kv
    by_cases hk' : seen.contains k' = true
    · simp only [List.cons_append, scanEnv, hk', if_true]
      exact ih b seen
    · have hk'2 := eq_false_of_ne_true hk'
      by_cases hph : pyStartsWith (pyStr v) "$" = true
      · by_cases hint :
            pyStartsWith (pyStrip (pyStr v) placeholderChars) "_" = true
        · simp only [List.cons_append, scanEnv, hk'2, hph, hint]
          simp only [Bool.false_eq_true, if_false, if_true]
          exact ih b seen
        · have hint2 := eq_false_of_ne_true hint
          simp only [List.cons_append, scanEnv, hk'2, hph, hint2]
          simp only [Bool.false_eq_true, if_false, if_true, List.append_eq]
          rw [ih b (k' :: seen)]
          simp
      · have hph2 := eq_false_of_ne_true hph
        simp only [List.cons_append, scanEnv, hk'2, hph2]
        simp only [Bool.false_eq_true, if_false, List.append_eq]
        rw [ih b (k' :: seen)]
        simp

/-- The nested service/environment loop of `extract_schema` equals one scan
over the concatenated occurrence list. -/
theorem scanServices_eq :
    ∀ (svcs : List (String × Yaml)) (seen : List String)
      (ps : List ComposeParameter),
      scanServices (seen, ps) svcs =
        ((scanEnv seen (allOccs svcs)).1,
          ps ++ (scanEnv seen (allOccs svcs)).2) := by
  intro svcs
  induction svcs with
  | nil => intro seen ps; simp [scanServices, allOccs, scanEnv]
  | cons sv rest ih =>
    intro seen ps
    obtain ⟨name, cfg⟩ := sv
    cases cfg with
    | map cf =>
      simp only [scanServices, allOccs]
      rw [ih, scanEnv_append]
      simp
    | s v => simpa [scanServices, allOccs, scanEnv] using ih seen ps
    | i v => simpa [scanServices, allOccs, scanEnv] using ih seen ps
    | b v => simpa [scanServices, allOccs, scanEnv] using ih seen ps
    | null => simpa [scanServices, allOccs, scanEnv] using ih seen ps
    | list xs => simpa [scanServices, allOccs, scanEnv] using ih seen ps

/-- Claim C3 as amended: for every service list and key, the parameters the
schema scan emits for that key are decided by the key's first *effective*
occurrence that is not an internal placeholder (effective: across all
services in document order, a mapping-form environment contributing its
entries and a list form its `KEY=VALUE` entries collapsed by dict
assignment, so within one list a later duplicate overrides the earlier
value).  A placeholder occurrence referencing a `_`-prefixed variable emits
nothing and does not mark the key seen.  The emitted parameter is required
(no default) when that occurrence is a placeholder, else optional with the
stringified value as default. -/
theorem c3_scan_characterization (svcs : List (String × Yaml)) (k : String) :
    (scan_parameters svcs).filter (fun p => p.name = k) =
      (match firstEmittable k (allOccs svcs) with
       | none => []
       | some v => [scanParamFor k v]) := by
  unfold scan_parameters
  rw [scanServices_eq svcs [] []]
  simpa using scanEnv_unseen_filter k (allOccs svcs) [] rfl

/-- Claim C3, counterexample: in a manifest whose only environment entry is
`FOO: "$_X"`, the key `FOO`'s first occurrence is a placeholder referencing
the internal variable `_X`.  The claim's second branch ("every other
first-seen key" emits exactly one optional parameter with the literal value
as default) demands a `FOO` parameter; the code emits none — the result is
just the three common variables. -/
theorem c3_counterexample :
    extract_schema (some c3doc) = some common_vars ∧
    common_vars.filter (fun p => p.name = "FOO") = [] ∧
    pyStartsWith (pyStr (.s "$_X")) "$" = true ∧
    pyStartsWith (pyStrip (pyStr (.s "$_X")) placeholderChars) "_" = true :=
  ⟨rfl, rfl, rfl, rfl⟩

/-! ## Claim C7 — environment override application -/

theorem lookup_eq_none_of_not_mem {β : Type} (k : String) :
    ∀ l : List (String × β), k ∉ l.map Prod.fst → l.lookup k = none := by
  intro l
  induction l with
  | nil => intro _; rfl
  | cons kv rest ih =>
    intro h
    have hk : ¬ k = kv.1 := fun he => h (by simp [he])
    have hr : k ∉ rest.map Prod.fst := fun hm => h (by simp [hm])
    simp [List.lookup, beq_false_of_ne hk, ih hr]

theorem splitFirstList_fst_no_sep (c : Char) :
    ∀ l : List Char, c ∉ (splitFirstList c l).1 := by
  intro l
  induction l with
  | nil => simp [splitFirstList]
  | cons a rest ih =>
    by_cases ha : a = c
    · simp [splitFirstList, ha]
    · simp only [splitFirstList, if_neg ha]
      intro hmem
      cases List.mem_cons.mp hmem with
      | inl he => exact ha he.symm
      | inr hm => exact ih hm

theorem assocSet_map_subst (ov : List (String × String)) (k v : String) :
    ∀ l : List (String × String),
      assocSet (l.map (substS ov)) k (substS ov (k, v)).2 =
        (assocSet l k v).map (substS ov) := by
  intro l
  induction l with
  | nil => simp [assocSet, substS]
  | cons kv rest ih =>
    obtain ⟨k0, v0⟩ := kv
    by_cases hk : k0 = k
    · subst hk
      simp [assocSet, substS]
    · have ih2 := ih
      simp only [substS] at ih2
      simp [assocSet, substS, hk, ih2]

theorem map_if_not_mem {α : Type} (k : String) (v : α) :
    ∀ m : List (String × α), k ∉ m.map Prod.fst →
      m.map (fun kv => if kv.1 = k then (kv.1, v) else kv) = m := by
  intro m
  induction m with
  | nil => intro _; rfl
  | cons kv rest ih =>
    intro h
    have hk : ¬ kv.1 = k := fun he => h (by simp [he.symm])
    have hr : k ∉ rest.map Prod.fst := fun hm => h (by simp [hm])
    simp [hk, ih hr]

theorem assocSet_present_eq {α : Type} (k : String) (v : α) :
    ∀ m : List (String × α), (m.map Prod.fst).Nodup →
      m.any (fun e => e.1 = k) = true →
      assocSet m k v = m.map (fun kv => if kv.1 = k then (kv.1, v) else kv) := by
  intro m
  induction m with
  | nil => intro _ h; cases h
  | cons kv rest ih =>
    intro hnd hany
    obtain ⟨k0, v0⟩ := kv
    have hnd' : (rest.map Prod.fst).Nodup := by
      simp only [List.map_cons, List.nodup_cons] at hnd
      exact hnd.2
    by_cases hk : k0 = k
    · subst hk
      have hnotin : k0 ∉ rest.map Prod.fst := by
        simp only [List.map_cons, List.nodup_cons] at hnd
        exact hnd.1
      simp [assocSet, map_if_not_mem k0 v rest hnotin]
    · have hany' : rest.any (fun e => e.1 = k) = true := by
        simp only [List.any_cons] at hany
        rcases Bool.or_eq_true_iff.mp hany with h1 | h1
        · exact absurd (of_decide_eq_true h1) hk
        · exact h1
      simp [assocSet, hk, ih hnd' hany']

theorem assocSet_keys_present {α : Type} (k : String) (v : α) :
    ∀ m : List (String × α), m.any (fun e => e.1 = k) = true →
      (assocSet m k v).map Prod.fst = m.map Prod.fst := by
  intro m
  induction m with
  | nil => intro h; cases h
  | cons kv rest ih =>
    intro hany
    obtain ⟨k0, v0⟩ := kv
    by_cases hk : k0 = k
    · subst hk; simp [assocSet]
    · have hany' : rest.any (fun e => e.1 = k) = true := by
        simp only [List.any_cons] at hany
        rcases Bool.or_eq_true_iff.mp hany with h1 | h1
        · exact absurd (of_decide_eq_true h1) hk
        · exact h1
      simp [assocSet, hk, ih hany']

theorem foldOv_subst :
    ∀ (ov : List (String × String)) (m : List (String × Yaml)),
      (ov.map Prod.fst).Nodup → (m.map Prod.fst).Nodup →
      ov.foldl applyOvStep m = m.map (dictSubst ov) := by
  intro ov
  induction ov with
  | nil =>
    intro m _ _
    have h : List.map (dictSubst []) m = List.map id m :=
      List.map_congr_left (fun kv _ => by simp [dictSubst, List.lookup])
    rw [List.foldl_nil, h, List.map_id]
  | cons p ov' ih =>
    obtain ⟨k, o⟩ := p
    intro m hov hm
    have hov2 : (k :: ov'.map Prod.fst).Nodup := by simpa using hov
    have hov' : (ov'.map Prod.fst).Nodup := (List.nodup_cons.mp hov2).2
    have hknotin : k ∉ ov'.map Prod.fst := (List.nodup_cons.mp hov2).1
    simp only [List.foldl_cons]
    by_cases hany : m.any (fun e => e.1 = k) = true
    · have hstep : applyOvStep m (k, o) = assocSet m k (.s o) := by
        simp [applyOvStep, hany]
      rw [hstep, assocSet_present_eq k (Yaml.s o) m hm hany]
      have hkeys : ((m.map (fun kv => if kv.1 = k then (kv.1, Yaml.s o) else kv)).map
          Prod.fst) = m.map Prod.fst := by
        rw [List.map_map]
        apply List.map_congr_left
        intro kv _
        by_cases hkv : kv.1 = k <;> simp [hkv]
      rw [ih _ hov' (by rw [hkeys]; exact hm)]
      rw [List.map_map]
      apply List.map_congr_left
      intro kv _
      by_cases hkv : kv.1 = k
      · have hnone : List.lookup k ov' = none :=
          lookup_eq_none_of_not_mem k ov' hknotin
        simp [dictSubst, hkv, hnone, List.lookup]
      · simp [dictSubst, hkv, List.lookup, beq_false_of_ne hkv]
    · have hany2 : m.any (fun e => e.1 = k) = false := eq_false_of_ne_true hany
      have hstep : applyOvStep m (k, o) = m := by
        simp [applyOvStep, hany2]
      rw [hstep, ih m hov' hm]
      apply List.map_congr_left
      intro kv hkv
      have hne : ¬ kv.1 = k := by
        intro he
        have : m.any (fun e => e.1 = k) = true :=
          List.any_eq_true.mpr ⟨kv, hkv, by simp [he]⟩
        rw [this] at hany2
        cases hany2
      simp [dictSubst, List.lookup, beq_false_of_ne hne]

theorem flattenMap_subst (ov : List (String × String)) :
    ∀ (m : List (String × Yaml)) (acc : List (String × String)),
      (m.map (dictSubst ov)).foldl flattenMapStep (acc.map (substS ov)) =
        (m.foldl flattenMapStep acc).map (substS ov) := by
  intro m
  induction m with
  | nil => intro acc; rfl
  | cons kv rest ih =>
    intro acc
    obtain ⟨k0, w⟩ := kv
    simp only [List.map_cons, List.foldl_cons]
    cases hov : List.lookup k0 ov with
    | none =>
      have h2 : (substS ov (k0, strOrEmpty w)).2 = strOrEmpty w := by
        simp [substS, hov]
      have hstep : flattenMapStep (acc.map (substS ov)) (dictSubst ov (k0, w)) =
          assocSet (acc.map (substS ov)) k0 (substS ov (k0, strOrEmpty w)).2 := by
        simp [flattenMapStep, dictSubst, hov, h2]
      rw [hstep, assocSet_map_subst]
      have hstep2 : flattenMapStep acc (k0, w) = assocSet acc k0 (strOrEmpty w) := rfl
      rw [hstep2, ih]
    | some o =>
      have h2 : (substS ov (k0, strOrEmpty w)).2 = o := by
        simp [substS, hov]
      have hstep : flattenMapStep (acc.map (substS ov)) (dictSubst ov (k0, w)) =
          assocSet (acc.map (substS ov)) k0 (substS ov (k0, strOrEmpty w)).2 := by
        simp only [flattenMapStep, dictSubst, hov, h2]
        rfl
      rw [hstep, assocSet_map_subst]
      have hstep2 : flattenMapStep acc (k0, w) = assocSet acc k0 (strOrEmpty w) := rfl
      rw [hstep2, ih]

theorem splitFirst_eq_append (k v : String) (h : '=' ∉ k.data) :
    splitFirst (k ++ "=" ++ v) '=' = (k, v) := by
  have hd : (k ++ "=" ++ v).data = k.data ++ '=' :: v.data := by
    simp [String.data_append]
  unfold splitFirst
  rw [hd, splitFirstList_append '=' v.data k.data h]

theorem flattenList_subst (ov : List (String × String)) :
    ∀ (items : List Yaml) (acc : List (String × String)),
      (items.map (overrideEnvItem ov)).foldl flattenListStep
          (acc.map (substS ov)) =
        (items.foldl flattenListStep acc).map (substS ov) := by
  intro items
  induction items with
  | nil => intro acc; rfl
  | cons it rest ih =>
    intro acc
    simp only [List.map_cons, List.foldl_cons]
    cases it with
    | s str =>
      by_cases hc : str.data.contains '=' = true
      · have hm : '=' ∈ str.data := by simpa using hc
        cases hov : List.lookup (splitFirst str '=').1 ov with
        | none =>
          have hitem : overrideEnvItem ov (.s str) = .s str := by
            simp [overrideEnvItem, hm, hov]
          have h2 : (substS ov ((splitFirst str '=').1, (splitFirst str '=').2)).2 =
              (splitFirst str '=').2 := by
            simp [substS, hov]
          have hstep : flattenListStep (acc.map (substS ov)) (.s str) =
              assocSet (acc.map (substS ov)) (splitFirst str '=').1
                (substS ov ((splitFirst str '=').1, (splitFirst str '=').2)).2 := by
            simp [flattenListStep, hm, h2]
          rw [hitem, hstep, assocSet_map_subst]
          have hstep2 : flattenListStep acc (.s str) =
              assocSet acc (splitFirst str '=').1 (splitFirst str '=').2 := by
            simp [flattenListStep, hm]
          rw [hstep2, ih]
        | some o =>
          have hitem : overrideEnvItem ov (.s str) =
              .s ((splitFirst str '=').1 ++ "=" ++ o) := by
            simp [overrideEnvItem, hm, hov]
          have hnomem : '=' ∉ ((splitFirst str '=').1 : String).data :=
            splitFirstList_fst_no_sep '=' str.data
          have hd : (((splitFirst str '=').1 : String) ++ "=" ++ o).data =
              ((splitFirst str '=').1 : String).data ++ '=' :: o.data := by
            simp [String.data_append]
          have hm2 : '=' ∈ (((splitFirst str '=').1 : String) ++ "=" ++ o).data := by
            rw [hd]; simp
          have hsp : splitFirst (((splitFirst str '=').1 : String) ++ "=" ++ o)
              '=' = ((splitFirst str '=').1, o) :=
            splitFirst_eq_append _ o hnomem
          have h2 : (substS ov ((splitFirst str '=').1, (splitFirst str '=').2)).2 =
              o := by
            simp [substS, hov]
          have hstep : flattenListStep (acc.map (substS ov))
              (.s (((splitFirst str '=').1 : String) ++ "=" ++ o)) =
              assocSet (acc.map (substS ov)) (splitFirst str '=').1
                (substS ov ((splitFirst str '=').1, (splitFirst str '=').2)).2 := by
            simp [flattenListStep, hm2, hsp, h2]
          rw [hitem, hstep, assocSet_map_subst]
          have hstep2 : flattenListStep acc (.s str) =
              assocSet acc (splitFirst str '=').1 (splitFirst str '=').2 := by
            simp [flattenListStep, hm]
          rw [hstep2, ih]
      · have hm : '=' ∉ str.data := by simpa using hc
        have hitem : overrideEnvItem ov (.s str) = .s str := by
          simp [overrideEnvItem, hm]
        have hstep : ∀ a : List (String × String),
            flattenListStep a (.s str) = a := by
          intro a; simp [flattenListStep, hm]
        rw [hitem, hstep, hstep, ih]
    | i n => exact ih acc
    | b bv => exact ih acc
    | null => exact ih acc
    | list xs => exact ih acc
    | map m => exact ih acc

theorem applyEnvOverrides_flatten (ov : List (String × String)) (env : Yaml)
    (hov : (ov.map Prod.fst).Nodup)
    (hm : ∀ m, env = Yaml.map m → (m.map Prod.fst).Nodup) :
    _flatten_env (applyEnvOverrides ov env) =
      (_flatten_env env).map (substS ov) := by
  cases env with
  | map m =>
    simp only [applyEnvOverrides, _flatten_env]
    rw [foldOv_subst ov m hov (hm m rfl)]
    simpa using flattenMap_subst ov m []
  | list items =>
    simp only [applyEnvOverrides, _flatten_env]
    simpa using flattenList_subst ov items []
  | s v => rfl
  | i n => rfl
  | b bv => rfl
  | null => rfl

/-- Claim C7: for every parseable manifest whose `services` value is a
mapping (and with the YAML-guaranteed key uniqueness of the override mapping
and of each mapping-form environment made explicit), the document
`apply_overrides` emits differs from the input only in its services; every
service keeps its name, and its re-parsed flat environment binds each key
that matches an override key to the override value and every other key to
its original value — in both the mapping and the `KEY=VALUE` list form. -/
theorem c7_apply_env_overrides (content : String)
    (kvs svcs : List (String × Yaml)) (ov : List (String × String))
    (hs : kvs.lookup "services" = some (.map svcs))
    (hov : (ov.map Prod.fst).Nodup)
    (henv : ∀ sv ∈ svcs, envKeysNodup sv.2) :
    ∃ svcs' : List (String × Yaml),
      apply_overrides content (some (.map kvs)) ov =
        some (.dumped (.map (assocSet kvs "services" (.map svcs')))) ∧
      svcs'.map Prod.fst = svcs.map Prod.fst ∧
      List.Forall₂
        (fun sv sv' => serviceEnv sv'.2 = (serviceEnv sv.2).map (substS ov))
        svcs svcs' := by
  have ht : truthy (.map kvs) = true := by
    cases kvs with
    | nil => cases hs
    | cons kv rest => simp [truthy]
  have hany : kvs.any (fun kv => kv.1 = "services") = true :=
    lookup_any "services" (.map svcs) kvs hs
  refine ⟨svcs.map (fun sv =>
    match sv.2 with
    | .map cf => (sv.1, Yaml.map (applyServiceOverrides ov cf))
    | _ => sv), ?_, ?_, ?_⟩
  · simp [apply_overrides, ht, ymem, hany, hs]
  · rw [List.map_map]
    apply List.map_congr_left
    intro sv _
    obtain ⟨n, cfg⟩ := sv
    cases cfg <;> rfl
  · rw [List.forall₂_map_right_iff]
    rw [List.forall₂_same]
    intro sv hsv
    obtain ⟨name, cfg⟩ := sv
    cases cfg with
    | map cf =>
      simp only [serviceEnv]
      cases he : cf.lookup "environment" with
      | none =>
        have hid : applyServiceOverrides ov cf = cf := by
          simp [applyServiceOverrides, he]
        rw [hid, he]
        rfl
      | some e =>
        cases e with
        | map m =>
          have hset : applyServiceOverrides ov cf =
              assocSet cf "environment" (applyEnvOverrides ov (.map m)) := by
            simp [applyServiceOverrides, he]
          rw [hset, assocSet_lookup_self]
          simp only [Option.getD_some]
          apply applyEnvOverrides_flatten
          · exact hov
          · intro m' hm'
            cases hm'
            exact henv (name, Yaml.map cf) hsv cf m rfl he
        | list l =>
          have hset : applyServiceOverrides ov cf =
              assocSet cf "environment" (applyEnvOverrides ov (.list l)) := by
            simp [applyServiceOverrides, he]
          rw [hset, assocSet_lookup_self]
          simp only [Option.getD_some]
          apply applyEnvOverrides_flatten
          · exact hov
          · intro m' hm'
            cases hm'
        | s v =>
          have hid : applyServiceOverrides ov cf = cf := by
            simp [applyServiceOverrides, he]
          rw [hid, he]
          rfl
        | i n =>
          have hid : applyServiceOverrides ov cf = cf := by
            simp [applyServiceOverrides, he]
          rw [hid, he]
          rfl
        | b bv =>
          have hid : applyServiceOverrides ov cf = cf := by
            simp [applyServiceOverrides, he]
          rw [hid, he]
          rfl
        | null =>
          have hid : applyServiceOverrides ov cf = cf := by
            simp [applyServiceOverrides, he]
          rw [hid, he]
          rfl
    | s v => simp [serviceEnv]
    | i n => simp [serviceEnv]
    | b bv => simp [serviceEnv]
    | null => simp [serviceEnv]
    | list xs => simp [serviceEnv]

/-- Claim C7, witness: the spec's example — overriding `PORT` to `9090`
rebinds the single service's `PORT` and leaves `DEBUG` untouched. -/
theorem c7_witness :
    (c7doc.lookup "services" =
      some (.map [("web",
        .map [("environment",
          .map [("PORT", .s "8080"), ("DEBUG", .s "true")])])])) ∧
    ((([("PORT", "9090")] : List (String × String)).map Prod.fst).Nodup) ∧
    (∀ sv ∈ ([("web",
        Yaml.map [("environment",
          .map [("PORT", .s "8080"), ("DEBUG", .s "true")])])] :
        List (String × Yaml)), envKeysNodup sv.2) ∧
    ∃ svcs' : List (String × Yaml),
      apply_overrides "text" (some (.map c7doc)) [("PORT", "9090")] =
        some (.dumped (.map (assocSet c7doc "services" (.map svcs')))) ∧
      svcs'.map Prod.fst =
        ([("web",
          Yaml.map [("environment",
            .map [("PORT", .s "8080"), ("DEBUG", .s "true")])])] :
          List (String × Yaml)).map Prod.fst ∧
      List.Forall₂
        (fun sv sv' => serviceEnv sv'.2 =
          (serviceEnv sv.2).map (substS [("PORT", "9090")]))
        ([("web",
          Yaml.map [("environment",
            .map [("PORT", .s "8080"), ("DEBUG", .s "true")])])] :
          List (String × Yaml)) svcs' := by
  have henv : ∀ sv ∈ ([("web",
      Yaml.map [("environment",
        .map [("PORT", .s "8080"), ("DEBUG", .s "true")])])] :
      List (String × Yaml)), envKeysNodup sv.2 := by
    intro sv hsv
    simp only [List.mem_singleton] at hsv
    subst hsv
    intro cf m h1 h2
    cases h1
    cases h2
    decide
  exact ⟨rfl, by simp, henv,
    c7_apply_env_overrides "text" c7doc _ [("PORT", "9090")] rfl (by simp) henv⟩

end AppStore
